import Mathlib

/-!
Gpseq: overflow-checked integer arithmetic (`src/overflow.c`) and atomic
64-bit integers (`src/atomic.c`)

A shallow embedding of the fixed-width checked arithmetic and of the atomic
operations of Gpseq.

Machine integers are mathematical integers (`Int`) together with explicit
reductions modulo `2 ^ w`:

* a value of a signed `w`-bit type is an `Int` in `[-2^(w-1), 2^(w-1))`;
* a conversion to the unsigned `w`-bit type is `toUnsigned w`;
* a conversion to the signed `w`-bit type (from an unsigned or from a wider
  type) is `toSigned w`;
* signed arithmetic in a `w`-bit type delivers the two's-complement
  wraparound of the exact result (what the hardware computes; C leaves the
  out-of-range case undefined).

The out-parameter `result` of the C functions is returned as the first
component of a pair; the second component is the returned `gboolean`.
The preprocessor conditions that select one body of a function are the fields
of `BuildConfig`.
-/

namespace Gpseq

/-! ## Machine integers -/

/-- The glib constant `G_MAXINT32`. -/
def G_MAXINT32 : Int := 2147483647

/-- The glib constant `G_MININT32`. -/
def G_MININT32 : Int := -2147483648

/-- The glib constant `G_MAXINT64`. -/
def G_MAXINT64 : Int := 9223372036854775807

/-- The glib constant `G_MININT64`. -/
def G_MININT64 : Int := -9223372036854775808

/-- Values representable in `gint32`. -/
def inRange32 (x : Int) : Prop := G_MININT32 ≤ x ∧ x ≤ G_MAXINT32

/-- Values representable in `gint64`. -/
def inRange64 (x : Int) : Prop := G_MININT64 ≤ x ∧ x ≤ G_MAXINT64

instance (x : Int) : Decidable (inRange32 x) := by
  unfold inRange32; infer_instance

instance (x : Int) : Decidable (inRange64 x) := by
  unfold inRange64; infer_instance

/-- Conversion of an integer value to the unsigned `w`-bit type
(`(guint64)a` for `w = 64`): the value modulo `2 ^ w`. -/
def toUnsigned (w : Nat) (x : Int) : Int := x % 2 ^ w

/-- Conversion of an integer value to the signed `w`-bit type (the store of a
wider or unsigned value into a `gint32` / `gint64` object): the low `w` bits
read as two's complement. -/
def toSigned (w : Nat) (x : Int) : Int :=
  let u := x % 2 ^ w
  if u < 2 ^ (w - 1) then u else u - 2 ^ w

/-- Unsigned `w`-bit addition. -/
def uadd (w : Nat) (x y : Int) : Int := (x + y) % 2 ^ w

/-- Unsigned `w`-bit multiplication. -/
def umul (w : Nat) (x y : Int) : Int := (x * y) % 2 ^ w

/-- Signed `w`-bit addition `x + y`. -/
def sadd (w : Nat) (x y : Int) : Int := toSigned w (x + y)

/-- Signed `w`-bit subtraction `x - y`. -/
def ssub (w : Nat) (x y : Int) : Int := toSigned w (x - y)

/-- Signed `w`-bit multiplication `x * y`. -/
def smul (w : Nat) (x y : Int) : Int := toSigned w (x * y)

/-- Signed `w`-bit unary minus `-x`. The negation of the minimum of the type
is not representable; its wraparound is the minimum itself. -/
def sneg (w : Nat) (x : Int) : Int := toSigned w (-x)

/-- Signed `w`-bit division `x / y`, truncating toward zero as in C. -/
def sdiv (w : Nat) (x y : Int) : Int := toSigned w (Int.tdiv x y)

/-! ## Reference semantics -/

/-- The exact result `x` reduced modulo `2 ^ w` and read as a two's-complement
`w`-bit number: the unique `r` in `[-2^(w-1), 2^(w-1))` with `r ≡ x`. -/
def wrapInt (w : Nat) (x : Int) : Int := (x + 2 ^ (w - 1)) % 2 ^ w - 2 ^ (w - 1)

/-- The exact result `x` is representable in the signed `w`-bit type. -/
def representable (w : Nat) (x : Int) : Prop := -(2 ^ (w - 1)) ≤ x ∧ x < 2 ^ (w - 1)

instance (w : Nat) (x : Int) : Decidable (representable w x) := by
  unfold representable; infer_instance

/-- The compiler primitive `__builtin_add_overflow` at a signed `w`-bit result
type: the exact sum is stored reduced modulo `2 ^ w`, and the return value
tells whether the exact sum is not representable. -/
def builtin_add_overflow (w : Nat) (a b : Int) : Int × Bool :=
  (wrapInt w (a + b), !decide (representable w (a + b)))

/-- The compiler primitive `__builtin_sub_overflow` at a signed `w`-bit result
type. -/
def builtin_sub_overflow (w : Nat) (a b : Int) : Int × Bool :=
  (wrapInt w (a - b), !decide (representable w (a - b)))

/-- The compiler primitive `__builtin_mul_overflow` at a signed `w`-bit result
type. -/
def builtin_mul_overflow (w : Nat) (a b : Int) : Int × Bool :=
  (wrapInt w (a * b), !decide (representable w (a * b)))

/-! ## The checked operations of `overflow.c` -/

/-- The preprocessor conditions that select the bodies in `overflow.c`. -/
structure BuildConfig where
  /-- The condition `__GNUC__ >= 5 || __has_builtin(__builtin_add_overflow)`. -/
  useBuiltin : Bool
  /-- The condition `defined(__SIZEOF_INT128__)`. -/
  hasInt128 : Bool
  deriving DecidableEq

/-- The manual-range build without a 128-bit integer type. -/
def manualFallback : BuildConfig := ⟨false, false⟩

/-- The manual-range build with a 128-bit integer type. -/
def manualInt128 : BuildConfig := ⟨false, true⟩

/-- The build on the compiler's checked-arithmetic primitives. -/
def builtinChecked : BuildConfig := ⟨true, false⟩

/-- The function `gpseq_overflow_int32_add`. -/
def gpseq_overflow_int32_add (cfg : BuildConfig) (a b : Int) : Int × Bool :=
  if cfg.useBuiltin then
    builtin_add_overflow 32 a b
  else
    let temp := sadd 64 a b
    (toSigned 32 temp, decide (temp > G_MAXINT32) || decide (temp < G_MININT32))

/-- The function `gpseq_overflow_int32_sub`: the manual-range body is the
addition of `a` and the negated `b`. -/
def gpseq_overflow_int32_sub (cfg : BuildConfig) (a b : Int) : Int × Bool :=
  if cfg.useBuiltin then
    builtin_sub_overflow 32 a b
  else
    gpseq_overflow_int32_add cfg a (sneg 32 b)

/-- The function `gpseq_overflow_int32_mul`. -/
def gpseq_overflow_int32_mul (cfg : BuildConfig) (a b : Int) : Int × Bool :=
  if cfg.useBuiltin then
    builtin_mul_overflow 32 a b
  else
    let temp := smul 64 a b
    (toSigned 32 temp, decide (temp > G_MAXINT32) || decide (temp < G_MININT32))

/-- The function `gpseq_overflow_int64_add`. -/
def gpseq_overflow_int64_add (cfg : BuildConfig) (a b : Int) : Int × Bool :=
  if cfg.useBuiltin then
    builtin_add_overflow 64 a b
  else if cfg.hasInt128 then
    let temp := sadd 128 a b
    (toSigned 64 temp, decide (temp > G_MAXINT64) || decide (temp < G_MININT64))
  else
    if (decide (b > 0) && decide (a > ssub 64 G_MAXINT64 b))
        || (decide (b < 0) && decide (a < ssub 64 G_MININT64 b)) then
      (toSigned 64 (uadd 64 (toUnsigned 64 a) (toUnsigned 64 b)), true)
    else
      (sadd 64 a b, false)

/-- The function `gpseq_overflow_int64_sub`: the manual-range body is the
addition of `a` and the negated `b`. -/
def gpseq_overflow_int64_sub (cfg : BuildConfig) (a b : Int) : Int × Bool :=
  if cfg.useBuiltin then
    builtin_sub_overflow 64 a b
  else
    gpseq_overflow_int64_add cfg a (sneg 64 b)

/-- The function `gpseq_overflow_int64_mul`. -/
def gpseq_overflow_int64_mul (cfg : BuildConfig) (a b : Int) : Int × Bool :=
  if cfg.useBuiltin then
    builtin_mul_overflow 64 a b
  else if cfg.hasInt128 then
    let temp := smul 128 a b
    (toSigned 64 temp, decide (temp > G_MAXINT64) || decide (temp < G_MININT64))
  else
    let result := toSigned 64 (umul 64 (toUnsigned 64 a) (toUnsigned 64 b))
    if !(decide (a ≠ 0) && decide (b ≠ 0)) then
      (result, false)
    else if a > 0 then
      if b > 0 then
        (result, decide (a > sdiv 64 G_MAXINT64 b))
      else
        (result, decide (b < sdiv 64 G_MININT64 a))
    else
      if b > 0 then
        (result, decide (a < sdiv 64 G_MININT64 b))
      else
        (result, decide (b < sdiv 64 G_MAXINT64 a))

/-! ## Evaluation trace of the sign/magnitude bodies

The sign/magnitude bodies of `gpseq_overflow_int64_add` and
`gpseq_overflow_int64_mul` once more, each returning next to its result the
signed operations it evaluates, in evaluation order (`&&` and `||` evaluate
their right operand only when the left one does not decide). Operations on
`guint64` are not recorded: they are defined for all operands. -/

/-- A signed 64-bit operation evaluated by a body, with its operands. -/
inductive SignedOp where
  /-- The signed sum `x + y`. -/
  | add (x y : Int)
  /-- The signed difference `x - y`. -/
  | sub (x y : Int)
  /-- The signed quotient `x / y`. -/
  | div (x y : Int)
  deriving DecidableEq

/-- The operation has defined behaviour in C on `gint64` operands: the exact
sum or difference is representable; the divisor is not zero and the quotient
is not `G_MININT64 / -1`. -/
def SignedOp.defined : SignedOp → Prop
  | .add x y => inRange64 (x + y)
  | .sub x y => inRange64 (x - y)
  | .div x y => y ≠ 0 ∧ ¬ (x = G_MININT64 ∧ y = -1)

instance (op : SignedOp) : Decidable op.defined := by
  cases op <;> unfold SignedOp.defined <;> infer_instance

/-- The sign case analysis body of `gpseq_overflow_int64_add` with its trace. -/
def gpseq_overflow_int64_add_traced (a b : Int) : (Int × Bool) × List SignedOp :=
  let l : Bool × List SignedOp :=
    if b > 0 then (decide (a > ssub 64 G_MAXINT64 b), [SignedOp.sub G_MAXINT64 b])
    else (false, [])
  let r : Bool × List SignedOp :=
    if l.1 then (true, l.2)
    else if b < 0 then (decide (a < ssub 64 G_MININT64 b), l.2 ++ [SignedOp.sub G_MININT64 b])
    else (false, l.2)
  if r.1 then
    ((toSigned 64 (uadd 64 (toUnsigned 64 a) (toUnsigned 64 b)), true), r.2)
  else
    ((sadd 64 a b, false), r.2 ++ [SignedOp.add a b])

/-- The sign case split body of `gpseq_overflow_int64_mul` with its trace. -/
def gpseq_overflow_int64_mul_traced (a b : Int) : (Int × Bool) × List SignedOp :=
  let result := toSigned 64 (umul 64 (toUnsigned 64 a) (toUnsigned 64 b))
  if !(decide (a ≠ 0) && decide (b ≠ 0)) then
    ((result, false), [])
  else if a > 0 then
    if b > 0 then
      ((result, decide (a > sdiv 64 G_MAXINT64 b)), [SignedOp.div G_MAXINT64 b])
    else
      ((result, decide (b < sdiv 64 G_MININT64 a)), [SignedOp.div G_MININT64 a])
  else
    if b > 0 then
      ((result, decide (a < sdiv 64 G_MININT64 b)), [SignedOp.div G_MININT64 b])
    else
      ((result, decide (b < sdiv 64 G_MAXINT64 a)), [SignedOp.div G_MAXINT64 a])

/-! ## The atomic operations of `atomic.c`

A call works on a `Memory`: the cell it is given a pointer to, and the
process-wide mutex `gpseq_atomic_lock`. Each function maps the memory before
the call to its return value and the memory after it; a call that cannot
return (it waits for a mutex that is held) has no result. Memory barriers
have no effect on a memory that is passed from call to call. -/

/-- The body of `atomic.c` selected by the preprocessor. -/
inductive AtomicBackend where
  /-- `__GCC_HAVE_SYNC_COMPARE_AND_SWAP_8` with `__ATOMIC_SEQ_CST`. -/
  | gccAtomic
  /-- `__GCC_HAVE_SYNC_COMPARE_AND_SWAP_8` without `__ATOMIC_SEQ_CST`. -/
  | gccSync
  /-- `G_PLATFORM_WIN32`. -/
  | win32
  /-- Neither: the operations are emulated with `gpseq_atomic_lock`. -/
  | mutex
  deriving DecidableEq

/-- The state a call reads and writes: whether `gpseq_atomic_lock` is held,
and the value of the cell (`gint64` cells hold an `Int`, `guint64` cells a
`Nat`). -/
structure Memory (α : Type) where
  /-- Whether the mutex `gpseq_atomic_lock` is held. -/
  gpseq_atomic_lock : Bool
  /-- The value of the cell `*atomic`. -/
  cell : α
  deriving DecidableEq

/-- The glib call `g_mutex_lock (&gpseq_atomic_lock)`: returns once the mutex
is acquired; on a mutex that stays held it does not return. -/
def g_mutex_lock {α : Type} (m : Memory α) : Option (Memory α) :=
  if m.gpseq_atomic_lock then none else some { m with gpseq_atomic_lock := true }

/-- The glib call `g_mutex_unlock (&gpseq_atomic_lock)`. -/
def g_mutex_unlock {α : Type} (m : Memory α) : Memory α :=
  { m with gpseq_atomic_lock := false }

/-- An atomic read-modify-write primitive that returns the new value:
`__atomic_add_fetch`, `__atomic_sub_fetch`, `__sync_add_and_fetch`,
`__sync_sub_and_fetch`, `InterlockedIncrement64`, `InterlockedDecrement64`. -/
def atomic_op_fetch {α : Type} (f : α → α) (m : Memory α) : α × Memory α :=
  (f m.cell, { m with cell := f m.cell })

/-- An atomic read-modify-write primitive that returns the previous value:
`__atomic_fetch_add` / `_and` / `_or` / `_xor`, `__sync_fetch_and_add` /
`_and` / `_or` / `_xor`, `InterlockedExchangeAdd64`, `InterlockedAnd64`,
`InterlockedOr64`, `InterlockedXor64`. -/
def atomic_fetch_op {α : Type} (f : α → α) (m : Memory α) : α × Memory α :=
  (m.cell, { m with cell := f m.cell })

/-- The strong compare-and-swap primitives `__atomic_compare_exchange_8` and
`__sync_bool_compare_and_swap`: when the cell equals `oldval` it is set to
`newval` and the primitive returns true, otherwise the cell is left and the
primitive returns false. -/
def atomic_bool_compare_and_swap (oldval newval : Int) (m : Memory Int) : Bool × Memory Int :=
  if m.cell = oldval then (true, { m with cell := newval }) else (false, m)

/-- The Win32 primitive `InterlockedCompareExchange64 (Destination, Exchange,
Comparand)`: when the cell equals `Comparand` it is set to `Exchange`; the
initial value of the cell is returned. -/
def InterlockedCompareExchange64 (exchange comparand : Int) (m : Memory Int) :
    Int × Memory Int :=
  (m.cell, if m.cell = comparand then { m with cell := exchange } else m)

/-- The function `gpseq_atomic_int64_get`. -/
def gpseq_atomic_int64_get (be : AtomicBackend) (m : Memory Int) : Option (Int × Memory Int) :=
  match be with
  | .mutex =>
    (g_mutex_lock m).map fun m1 =>
      let value := m1.cell
      (value, g_mutex_unlock m1)
  | .gccAtomic => some (m.cell, m) -- the load `__atomic_load_8`
  | .gccSync => some (m.cell, m) -- barrier, then the plain read
  | .win32 => some (m.cell, m) -- barrier, then the plain read

/-- The function `gpseq_atomic_int64_set`. -/
def gpseq_atomic_int64_set (be : AtomicBackend) (newval : Int) (m : Memory Int) :
    Option (Memory Int) :=
  match be with
  | .mutex =>
    (g_mutex_lock m).map fun m1 =>
      g_mutex_unlock { m1 with cell := newval }
  | .gccAtomic => some { m with cell := newval } -- the store `__atomic_store_8`
  | .gccSync => some { m with cell := newval } -- the plain write, then barrier
  | .win32 => some { m with cell := newval } -- the plain write, then barrier

/-- The function `gpseq_atomic_int64_inc`. -/
def gpseq_atomic_int64_inc (be : AtomicBackend) (m : Memory Int) : Option (Memory Int) :=
  match be with
  | .mutex =>
    (g_mutex_lock m).map fun m1 =>
      g_mutex_unlock { m1 with cell := sadd 64 m1.cell 1 }
  | .gccAtomic => some (atomic_op_fetch (fun c => sadd 64 c 1) m).2
  | .gccSync => some (atomic_op_fetch (fun c => sadd 64 c 1) m).2
  | .win32 => some (atomic_op_fetch (fun c => sadd 64 c 1) m).2

/-- The function `gpseq_atomic_int64_dec_and_test`. -/
def gpseq_atomic_int64_dec_and_test (be : AtomicBackend) (m : Memory Int) :
    Option (Bool × Memory Int) :=
  match be with
  | .mutex =>
    (g_mutex_lock m).map fun m1 =>
      let m2 := { m1 with cell := ssub 64 m1.cell 1 }
      let is_zero := decide (m2.cell = 0)
      (is_zero, g_mutex_unlock m2)
  | .gccAtomic =>
    let r := atomic_op_fetch (fun c => ssub 64 c 1) m
    some (decide (r.1 = 0), r.2)
  | .gccSync =>
    let r := atomic_op_fetch (fun c => ssub 64 c 1) m
    some (decide (r.1 = 0), r.2)
  | .win32 =>
    let r := atomic_op_fetch (fun c => ssub 64 c 1) m
    some (decide (r.1 = 0), r.2)

/-- The function `gpseq_atomic_int64_compare_and_exchange`. -/
def gpseq_atomic_int64_compare_and_exchange (be : AtomicBackend) (oldval newval : Int)
    (m : Memory Int) : Option (Bool × Memory Int) :=
  match be with
  | .mutex =>
    (g_mutex_lock m).map fun m1 =>
      let success := decide (m1.cell = oldval)
      let m2 := if success then { m1 with cell := newval } else m1
      (success, g_mutex_unlock m2)
  | .win32 =>
    let r := InterlockedCompareExchange64 newval oldval m
    some (decide (r.1 = oldval), r.2)
  | .gccAtomic => some (atomic_bool_compare_and_swap oldval newval m)
  | .gccSync => some (atomic_bool_compare_and_swap oldval newval m)

/-- The function `gpseq_atomic_int64_add`. -/
def gpseq_atomic_int64_add (be : AtomicBackend) (val : Int) (m : Memory Int) :
    Option (Int × Memory Int) :=
  match be with
  | .mutex =>
    (g_mutex_lock m).map fun m1 =>
      let oldval := m1.cell
      (oldval, g_mutex_unlock { m1 with cell := sadd 64 oldval val })
  | .gccAtomic => some (atomic_fetch_op (fun c => sadd 64 c val) m)
  | .gccSync => some (atomic_fetch_op (fun c => sadd 64 c val) m)
  | .win32 => some (atomic_fetch_op (fun c => sadd 64 c val) m)

/-- The function `gpseq_atomic_int64_and`. -/
def gpseq_atomic_int64_and (be : AtomicBackend) (val : Nat) (m : Memory Nat) :
    Option (Nat × Memory Nat) :=
  match be with
  | .mutex =>
    (g_mutex_lock m).map fun m1 =>
      let oldval := m1.cell
      (oldval, g_mutex_unlock { m1 with cell := oldval &&& val })
  | .gccAtomic => some (atomic_fetch_op (fun c => c &&& val) m)
  | .gccSync => some (atomic_fetch_op (fun c => c &&& val) m)
  | .win32 => some (atomic_fetch_op (fun c => c &&& val) m)

/-- The function `gpseq_atomic_int64_or`. -/
def gpseq_atomic_int64_or (be : AtomicBackend) (val : Nat) (m : Memory Nat) :
    Option (Nat × Memory Nat) :=
  match be with
  | .mutex =>
    (g_mutex_lock m).map fun m1 =>
      let oldval := m1.cell
      (oldval, g_mutex_unlock { m1 with cell := oldval ||| val })
  | .gccAtomic => some (atomic_fetch_op (fun c => c ||| val) m)
  | .gccSync => some (atomic_fetch_op (fun c => c ||| val) m)
  | .win32 => some (atomic_fetch_op (fun c => c ||| val) m)

/-- The function `gpseq_atomic_int64_xor`. -/
def gpseq_atomic_int64_xor (be : AtomicBackend) (val : Nat) (m : Memory Nat) :
    Option (Nat × Memory Nat) :=
  match be with
  | .mutex =>
    (g_mutex_lock m).map fun m1 =>
      let oldval := m1.cell
      (oldval, g_mutex_unlock { m1 with cell := oldval ^^^ val })
  | .gccAtomic => some (atomic_fetch_op (fun c => c ^^^ val) m)
  | .gccSync => some (atomic_fetch_op (fun c => c ^^^ val) m)
  | .win32 => some (atomic_fetch_op (fun c => c ^^^ val) m)

/-- A run of calls to `gpseq_atomic_int64_dec_and_test` on one cell, one call
after the other: `schedule` lists, in the order in which the calls take
effect, the thread that makes each call. The run returns each call's caller
and return value, in the same order, and the memory after the last call. -/
def dec_and_test_run (be : AtomicBackend) :
    List Nat → Memory Int → Option (List (Nat × Bool) × Memory Int)
  | [], m => some ([], m)
  | t :: schedule, m =>
    match gpseq_atomic_int64_dec_and_test be m with
    | none => none
    | some (r, m1) =>
      match dec_and_test_run be schedule m1 with
      | none => none
      | some (rs, m2) => some ((t, r) :: rs, m2)

/-- The values representable in `guint64`. -/
def inRangeU64 (x : Nat) : Prop := x < 2 ^ 64

instance (x : Nat) : Decidable (inRangeU64 x) := by
  unfold inRangeU64; infer_instance

/-! ## Machine-integer lemmas -/

theorem toSigned64_eq_wrapInt (x : Int) : toSigned 64 x = wrapInt 64 x := by
  simp only [toSigned, wrapInt]
  norm_num
  split_ifs <;> omega

theorem toSigned32_eq_wrapInt (x : Int) : toSigned 32 x = wrapInt 32 x := by
  simp only [toSigned, wrapInt]
  norm_num
  split_ifs <;> omega

theorem toSigned64_of_inRange (x : Int) (h : inRange64 x) : toSigned 64 x = x := by
  simp only [inRange64, G_MININT64, G_MAXINT64] at h
  simp only [toSigned]
  norm_num
  split_ifs <;> omega

theorem wrapInt64_of_inRange (x : Int) (h : inRange64 x) : wrapInt 64 x = x := by
  rw [← toSigned64_eq_wrapInt, toSigned64_of_inRange x h]

theorem wrapInt32_of_inRange (x : Int) (h : inRange32 x) : wrapInt 32 x = x := by
  simp only [inRange32, G_MININT32, G_MAXINT32] at h
  simp only [wrapInt]
  norm_num
  omega

theorem representable64_iff (x : Int) : representable 64 x ↔ inRange64 x := by
  simp only [representable, inRange64, G_MININT64, G_MAXINT64]
  norm_num
  omega

theorem representable32_iff (x : Int) : representable 32 x ↔ inRange32 x := by
  simp only [representable, inRange32, G_MININT32, G_MAXINT32]
  norm_num
  omega

theorem sneg64_inRange (b : Int) : inRange64 (sneg 64 b) := by
  simp only [sneg, toSigned, inRange64, G_MININT64, G_MAXINT64]
  norm_num
  split_ifs <;> omega

theorem sneg32_inRange (b : Int) : inRange32 (sneg 32 b) := by
  simp only [sneg, toSigned, inRange32, G_MININT32, G_MAXINT32]
  norm_num
  split_ifs <;> omega

/-- The exact product of two `gint64` values fits in 128 bits. -/
theorem mul_inRange64_bounds (a b : Int) (ha : inRange64 a) (hb : inRange64 b) :
    -85070591730234615865843651857942052864 ≤ a * b
      ∧ a * b ≤ 85070591730234615865843651857942052864 := by
  simp only [inRange64, G_MININT64, G_MAXINT64] at ha hb
  have h1 : |a| ≤ 9223372036854775808 := abs_le.mpr ⟨by omega, by omega⟩
  have h2 : |b| ≤ 9223372036854775808 := abs_le.mpr ⟨by omega, by omega⟩
  have h3 : |a * b| ≤ 9223372036854775808 * 9223372036854775808 := by
    rw [abs_mul]
    exact mul_le_mul h1 h2 (abs_nonneg b) (by norm_num)
  have h4 := abs_le.mp h3
  constructor
  · have := h4.1; norm_num at this; omega
  · have := h4.2; norm_num at this; omega

/-- The exact product of two `gint32` values fits in 64 bits. -/
theorem mul_inRange32_bounds (a b : Int) (ha : inRange32 a) (hb : inRange32 b) :
    -4611686018427387904 ≤ a * b ∧ a * b ≤ 4611686018427387904 := by
  simp only [inRange32, G_MININT32, G_MAXINT32] at ha hb
  have h1 : |a| ≤ 2147483648 := abs_le.mpr ⟨by omega, by omega⟩
  have h2 : |b| ≤ 2147483648 := abs_le.mpr ⟨by omega, by omega⟩
  have h3 : |a * b| ≤ 2147483648 * 2147483648 := by
    rw [abs_mul]
    exact mul_le_mul h1 h2 (abs_nonneg b) (by norm_num)
  have h4 := abs_le.mp h3
  constructor
  · have := h4.1; norm_num at this; omega
  · have := h4.2; norm_num at this; omega

/-- Comparison against the quotient `G_MAXINT64 / b` for a positive divisor. -/
theorem sdiv_max_pos (a b : Int) (hb : 0 < b) :
    a > sdiv 64 G_MAXINT64 b ↔ G_MAXINT64 < a * b := by
  have h1 : Int.tdiv G_MAXINT64 b = G_MAXINT64 / b :=
    Int.tdiv_eq_ediv (by decide) hb.le
  have h2 : 0 ≤ G_MAXINT64 / b := Int.ediv_nonneg (by decide) hb.le
  have h3 : G_MAXINT64 / b ≤ G_MAXINT64 := Int.ediv_le_self b (by decide)
  have h4 : toSigned 64 (G_MAXINT64 / b) = G_MAXINT64 / b :=
    toSigned64_of_inRange _ ⟨le_trans (by decide) h2, h3⟩
  rw [sdiv, h1, h4]
  exact Int.ediv_lt_iff_lt_mul hb

/-- Comparison against the quotient `G_MININT64 / a` for a positive divisor. -/
theorem sdiv_min_pos (a b : Int) (ha : 0 < a) :
    b < sdiv 64 G_MININT64 a ↔ a * b < G_MININT64 := by
  have e : G_MININT64 = -(G_MAXINT64 + 1) := by decide
  have h1 : Int.tdiv (G_MAXINT64 + 1) a = (G_MAXINT64 + 1) / a :=
    Int.tdiv_eq_ediv (by decide) ha.le
  have h2 : 0 ≤ (G_MAXINT64 + 1) / a := Int.ediv_nonneg (by decide) ha.le
  have h3 : (G_MAXINT64 + 1) / a ≤ G_MAXINT64 + 1 := Int.ediv_le_self a (by decide)
  have h4 : toSigned 64 (-((G_MAXINT64 + 1) / a)) = -((G_MAXINT64 + 1) / a) := by
    apply toSigned64_of_inRange
    constructor
    · rw [e]; omega
    · exact le_trans (by omega) (show (0 : Int) ≤ G_MAXINT64 by decide)
  have h5 : (G_MAXINT64 + 1) / a < -b ↔ G_MAXINT64 + 1 < -b * a :=
    Int.ediv_lt_iff_lt_mul ha
  have h6 : -b * a = -(a * b) := by ring
  rw [sdiv, e, Int.neg_tdiv, h1, h4]
  rw [h6] at h5
  omega

/-- Comparison against the quotient `G_MAXINT64 / a` for a negative divisor. -/
theorem sdiv_max_neg (a b : Int) (ha : a < 0) :
    b < sdiv 64 G_MAXINT64 a ↔ G_MAXINT64 < a * b := by
  have hna : 0 < -a := by omega
  have h1 : Int.tdiv G_MAXINT64 (-a) = G_MAXINT64 / (-a) :=
    Int.tdiv_eq_ediv (by decide) hna.le
  have h2 : 0 ≤ G_MAXINT64 / (-a) := Int.ediv_nonneg (by decide) hna.le
  have h3 : G_MAXINT64 / (-a) ≤ G_MAXINT64 := Int.ediv_le_self (-a) (by decide)
  have h4 : toSigned 64 (-(G_MAXINT64 / (-a))) = -(G_MAXINT64 / (-a)) := by
    apply toSigned64_of_inRange
    constructor
    · exact le_trans (show G_MININT64 ≤ -G_MAXINT64 by decide) (by omega)
    · exact le_trans (by omega) (show (0 : Int) ≤ G_MAXINT64 by decide)
  have h5 : G_MAXINT64 / (-a) < -b ↔ G_MAXINT64 < -b * -a :=
    Int.ediv_lt_iff_lt_mul hna
  have h6 : -b * -a = a * b := by ring
  have h7 : Int.tdiv G_MAXINT64 a = -(G_MAXINT64 / (-a)) := by
    rw [← h1, ← Int.tdiv_neg, neg_neg]
  rw [sdiv, h7, h4]
  rw [h6] at h5
  omega

/-- The unsigned product of the converted operands is the exact product
modulo `2 ^ 64`. -/
theorem umul64_toUnsigned (a b : Int) :
    umul 64 (toUnsigned 64 a) (toUnsigned 64 b) = (a * b) % 2 ^ 64 := by
  simp only [umul, toUnsigned]
  exact (Int.mul_emod a b (2 ^ 64)).symm

/-- The unsigned sum of the converted operands is the exact sum modulo
`2 ^ 64`. -/
theorem uadd64_toUnsigned (a b : Int) :
    uadd 64 (toUnsigned 64 a) (toUnsigned 64 b) = (a + b) % 2 ^ 64 := by
  simp only [uadd, toUnsigned]
  exact (Int.add_emod a b (2 ^ 64)).symm

/-- Conversion to a signed type only looks at the low bits. -/
theorem toSigned_emod (w : Nat) (x : Int) : toSigned w (x % 2 ^ w) = toSigned w x := by
  simp only [toSigned, Int.emod_emod_of_dvd x (dvd_refl _)]


/-! ## The manual-range bodies against the exact result -/

/-- Manual-range 32-bit addition: stored value and flag. -/
theorem int32_add_manual (cfg : BuildConfig) (hcfg : cfg.useBuiltin = false) (a b : Int)
    (ha : inRange32 a) (hb : inRange32 b) :
    gpseq_overflow_int32_add cfg a b = (wrapInt 32 (a + b), decide (¬ inRange32 (a + b))) := by
  simp only [inRange32, G_MININT32, G_MAXINT32] at ha hb
  have h64 : sadd 64 a b = a + b := by
    apply toSigned64_of_inRange
    simp only [inRange64, G_MININT64, G_MAXINT64]
    omega
  simp only [gpseq_overflow_int32_add, hcfg, h64, toSigned32_eq_wrapInt, inRange32,
    G_MININT32, G_MAXINT32]
  refine Prod.ext rfl ?_
  simp only [Bool.false_eq_true, ↓reduceIte]
  rw [Bool.eq_iff_iff]
  simp only [Bool.or_eq_true, decide_eq_true_eq]
  omega

/-- Manual-range 32-bit multiplication: stored value and flag. -/
theorem int32_mul_manual (cfg : BuildConfig) (hcfg : cfg.useBuiltin = false) (a b : Int)
    (ha : inRange32 a) (hb : inRange32 b) :
    gpseq_overflow_int32_mul cfg a b = (wrapInt 32 (a * b), decide (¬ inRange32 (a * b))) := by
  have hm := mul_inRange32_bounds a b ha hb
  have h64 : smul 64 a b = a * b := by
    apply toSigned64_of_inRange
    simp only [inRange64, G_MININT64, G_MAXINT64]
    omega
  simp only [gpseq_overflow_int32_mul, hcfg, h64, toSigned32_eq_wrapInt, inRange32,
    G_MININT32, G_MAXINT32]
  refine Prod.ext rfl ?_
  simp only [Bool.false_eq_true, ↓reduceIte]
  rw [Bool.eq_iff_iff]
  simp only [Bool.or_eq_true, decide_eq_true_eq]
  omega

/-- Manual-range 64-bit addition, either body: stored value and flag. -/
theorem int64_add_manual (cfg : BuildConfig) (hcfg : cfg.useBuiltin = false) (a b : Int)
    (ha : inRange64 a) (hb : inRange64 b) :
    gpseq_overflow_int64_add cfg a b = (wrapInt 64 (a + b), decide (¬ inRange64 (a + b))) := by
  simp only [gpseq_overflow_int64_add, hcfg, Bool.false_eq_true, ↓reduceIte]
  simp only [inRange64, G_MININT64, G_MAXINT64] at ha hb
  cases h128 : cfg.hasInt128
  · -- sign case analysis
    simp only [Bool.false_eq_true, ↓reduceIte, uadd64_toUnsigned, toSigned_emod, sadd,
      toSigned64_eq_wrapInt]
    have e1 : ssub 64 G_MAXINT64 b = wrapInt 64 (G_MAXINT64 - b) := toSigned64_eq_wrapInt _
    have e2 : ssub 64 G_MININT64 b = wrapInt 64 (G_MININT64 - b) := toSigned64_eq_wrapInt _
    have hcond : ((decide (b > 0) && decide (a > ssub 64 G_MAXINT64 b))
        || (decide (b < 0) && decide (a < ssub 64 G_MININT64 b)))
        = decide (¬ inRange64 (a + b)) := by
      rw [Bool.eq_iff_iff, e1, e2]
      simp only [Bool.or_eq_true, Bool.and_eq_true, decide_eq_true_eq, wrapInt, inRange64,
        G_MININT64, G_MAXINT64]
      norm_num
      omega
    rw [hcond]
    by_cases hov : inRange64 (a + b)
    · have hd : decide (¬ inRange64 (a + b)) = false := by
        simp only [decide_eq_false_iff_not, not_not]
        exact hov
      rw [hd]
      simp only [Bool.false_eq_true, ↓reduceIte]
    · have hd : decide (¬ inRange64 (a + b)) = true := by
        simp only [decide_eq_true_eq]
        exact hov
      rw [hd]
      simp only [↓reduceIte]
  · -- 128-bit intermediate
    have h1 : sadd 128 a b = a + b := by
      simp only [sadd, toSigned]
      norm_num
      split_ifs <;> omega
    simp only [↓reduceIte, h1, toSigned64_eq_wrapInt, inRange64]
    refine Prod.ext rfl ?_
    rw [Bool.eq_iff_iff]
    simp only [Bool.or_eq_true, decide_eq_true_eq, G_MININT64, G_MAXINT64]
    omega

/-- Manual-range 64-bit multiplication, either body: stored value and flag. -/
theorem int64_mul_manual (cfg : BuildConfig) (hcfg : cfg.useBuiltin = false) (a b : Int)
    (ha : inRange64 a) (hb : inRange64 b) :
    gpseq_overflow_int64_mul cfg a b = (wrapInt 64 (a * b), decide (¬ inRange64 (a * b))) := by
  simp only [gpseq_overflow_int64_mul, hcfg, Bool.false_eq_true, ↓reduceIte]
  cases h128 : cfg.hasInt128
  · -- sign case split against the quotients
    simp only [Bool.false_eq_true, ↓reduceIte, umul64_toUnsigned, toSigned_emod,
      toSigned64_eq_wrapInt]
    have hmin : G_MININT64 < 0 := by decide
    have hmax : 0 < G_MAXINT64 := by decide
    by_cases h0 : a = 0 ∨ b = 0
    · have hz : a * b = 0 := mul_eq_zero.mpr h0
      have hc : (!(decide (a ≠ 0) && decide (b ≠ 0))) = true := by
        rcases h0 with h | h <;> simp [h]
      rw [if_pos hc, hz]
      refine Prod.ext rfl ?_
      simp only [false_eq_decide_iff, not_not, inRange64]
      exact ⟨hmin.le, hmax.le⟩
    · have ha0 : a ≠ 0 := fun h => h0 (Or.inl h)
      have hb0 : b ≠ 0 := fun h => h0 (Or.inr h)
      have hc : ¬ ((!(decide (a ≠ 0) && decide (b ≠ 0))) = true) := by simp [ha0, hb0]
      rw [if_neg hc]
      by_cases hap : a > 0
      · rw [if_pos hap]
        by_cases hbp : b > 0
        · rw [if_pos hbp]
          refine Prod.ext rfl ?_
          rw [Bool.eq_iff_iff]
          simp only [decide_eq_true_eq, sdiv_max_pos a b hbp, inRange64]
          have hp : 0 < a * b := Int.mul_pos hap hbp
          omega
        · rw [if_neg hbp]
          have hbn : b < 0 := by omega
          refine Prod.ext rfl ?_
          rw [Bool.eq_iff_iff]
          simp only [decide_eq_true_eq, sdiv_min_pos a b hap, inRange64]
          have hp : a * b < 0 := Int.mul_neg_of_pos_of_neg hap hbn
          omega
      · rw [if_neg hap]
        have han : a < 0 := by omega
        by_cases hbp : b > 0
        · rw [if_pos hbp]
          refine Prod.ext rfl ?_
          rw [Bool.eq_iff_iff]
          have hq := sdiv_min_pos b a hbp
          rw [mul_comm b a] at hq
          simp only [decide_eq_true_eq, hq, inRange64]
          have hp : a * b < 0 := Int.mul_neg_of_neg_of_pos han hbp
          omega
        · rw [if_neg hbp]
          have hbn : b < 0 := by omega
          refine Prod.ext rfl ?_
          rw [Bool.eq_iff_iff]
          simp only [decide_eq_true_eq, sdiv_max_neg a b han, inRange64]
          have hp : 0 < a * b := Int.mul_pos_of_neg_of_neg han hbn
          omega
  · -- 128-bit intermediate
    have hm := mul_inRange64_bounds a b ha hb
    have h1 : smul 128 a b = a * b := by
      simp only [smul, toSigned]
      norm_num
      split_ifs <;> omega
    simp only [↓reduceIte, h1, toSigned64_eq_wrapInt, inRange64]
    refine Prod.ext rfl ?_
    rw [Bool.eq_iff_iff]
    simp only [Bool.or_eq_true, decide_eq_true_eq, G_MININT64, G_MAXINT64]
    omega

/-- Manual-range 64-bit subtraction, either body: the stored value is the
wrapped difference and the flag is that of the addition of the wrapped
negation. -/
theorem int64_sub_manual (cfg : BuildConfig) (hcfg : cfg.useBuiltin = false) (a b : Int)
    (ha : inRange64 a) :
    gpseq_overflow_int64_sub cfg a b
      = (wrapInt 64 (a - b), decide (¬ inRange64 (a + sneg 64 b))) := by
  simp only [gpseq_overflow_int64_sub, hcfg, Bool.false_eq_true, ↓reduceIte]
  rw [int64_add_manual cfg hcfg a (sneg 64 b) ha (sneg64_inRange b)]
  refine Prod.ext ?_ rfl
  simp only [sneg, toSigned, wrapInt]
  norm_num
  split_ifs <;> omega

/-- Manual-range 32-bit subtraction: the stored value is the wrapped
difference and the flag is that of the addition of the wrapped negation. -/
theorem int32_sub_manual (cfg : BuildConfig) (hcfg : cfg.useBuiltin = false) (a b : Int)
    (ha : inRange32 a) :
    gpseq_overflow_int32_sub cfg a b
      = (wrapInt 32 (a - b), decide (¬ inRange32 (a + sneg 32 b))) := by
  simp only [gpseq_overflow_int32_sub, hcfg, Bool.false_eq_true, ↓reduceIte]
  rw [int32_add_manual cfg hcfg a (sneg 32 b) ha (sneg32_inRange b)]
  refine Prod.ext ?_ rfl
  simp only [sneg, toSigned, wrapInt]
  norm_num
  split_ifs <;> omega

/-- The wrapped negation is the exact negation except at the minimum. -/
theorem sneg64_of_ne_min (b : Int) (hb : inRange64 b) (hne : b ≠ G_MININT64) :
    sneg 64 b = -b := by
  simp only [inRange64, G_MININT64, G_MAXINT64] at hb hne
  apply toSigned64_of_inRange
  simp only [inRange64, G_MININT64, G_MAXINT64]
  omega

/-- The wrapped 32-bit negation is the exact negation except at the minimum. -/
theorem sneg32_of_ne_min (b : Int) (hb : inRange32 b) (hne : b ≠ G_MININT32) :
    sneg 32 b = -b := by
  simp only [inRange32, G_MININT32, G_MAXINT32] at hb hne
  simp only [sneg, toSigned]
  norm_num
  split_ifs <;> omega


/-! ## Agreement of the two strategies where it holds -/

/-- Addition: the compiler-primitive build and the manual-range builds return
the same pair, at both widths. -/
theorem add_strategies_agree (cfg : BuildConfig) (hcfg : cfg.useBuiltin = false)
    (a b : Int) (ha : inRange64 a) (hb : inRange64 b)
    (c d : Int) (hc : inRange32 c) (hd : inRange32 d) :
    gpseq_overflow_int64_add cfg a b = gpseq_overflow_int64_add builtinChecked a b
      ∧ gpseq_overflow_int32_add cfg c d = gpseq_overflow_int32_add builtinChecked c d := by
  rw [int64_add_manual cfg hcfg a b ha hb, int32_add_manual cfg hcfg c d hc hd]
  simp only [gpseq_overflow_int64_add, gpseq_overflow_int32_add, builtinChecked, ↓reduceIte,
    builtin_add_overflow, representable64_iff, representable32_iff, decide_not]
  exact ⟨trivial, trivial⟩

/-- Multiplication: the compiler-primitive build and the manual-range builds
return the same pair, at both widths. -/
theorem mul_strategies_agree (cfg : BuildConfig) (hcfg : cfg.useBuiltin = false)
    (a b : Int) (ha : inRange64 a) (hb : inRange64 b)
    (c d : Int) (hc : inRange32 c) (hd : inRange32 d) :
    gpseq_overflow_int64_mul cfg a b = gpseq_overflow_int64_mul builtinChecked a b
      ∧ gpseq_overflow_int32_mul cfg c d = gpseq_overflow_int32_mul builtinChecked c d := by
  rw [int64_mul_manual cfg hcfg a b ha hb, int32_mul_manual cfg hcfg c d hc hd]
  simp only [gpseq_overflow_int64_mul, gpseq_overflow_int32_mul, builtinChecked, ↓reduceIte,
    builtin_mul_overflow, representable64_iff, representable32_iff, decide_not]
  exact ⟨trivial, trivial⟩

/-- Subtraction: the two strategies return the same pair whenever the
subtrahend is not the minimum of its type. -/
theorem sub_strategies_agree_of_ne_min (cfg : BuildConfig) (hcfg : cfg.useBuiltin = false)
    (a b : Int) (ha : inRange64 a) (hb : inRange64 b) (hb' : b ≠ G_MININT64)
    (c d : Int) (hc : inRange32 c) (hd : inRange32 d) (hd' : d ≠ G_MININT32) :
    gpseq_overflow_int64_sub cfg a b = gpseq_overflow_int64_sub builtinChecked a b
      ∧ gpseq_overflow_int32_sub cfg c d = gpseq_overflow_int32_sub builtinChecked c d := by
  rw [int64_sub_manual cfg hcfg a b ha, int32_sub_manual cfg hcfg c d hc,
    sneg64_of_ne_min b hb hb', sneg32_of_ne_min d hd hd']
  simp only [gpseq_overflow_int64_sub, gpseq_overflow_int32_sub, builtinChecked, ↓reduceIte,
    builtin_sub_overflow, representable64_iff, representable32_iff, decide_not, sub_eq_add_neg]
  exact ⟨trivial, trivial⟩

/-! ## The claims -/

/-- C1. For all `gint64` values `a`, `b` the manual-range
`gpseq_overflow_int64_add` (the sign case analysis body, and the 128-bit body
as well) returns TRUE exactly when the exact sum `a + b` lies outside
`[G_MININT64, G_MAXINT64]`; for all `gint32` values `c`, `d` the manual-range
`gpseq_overflow_int32_add` returns TRUE exactly when `c + d` lies outside
`[G_MININT32, G_MAXINT32]`. -/
theorem overflow_add_flag_iff (cfg : BuildConfig) (hcfg : cfg.useBuiltin = false)
    (a b : Int) (ha : inRange64 a) (hb : inRange64 b)
    (c d : Int) (hc : inRange32 c) (hd : inRange32 d) :
    ((gpseq_overflow_int64_add cfg a b).2 = true ↔ ¬ inRange64 (a + b))
      ∧ ((gpseq_overflow_int32_add cfg c d).2 = true ↔ ¬ inRange32 (c + d)) := by
  rw [int64_add_manual cfg hcfg a b ha hb, int32_add_manual cfg hcfg c d hc hd]
  exact ⟨decide_eq_true_iff, decide_eq_true_iff⟩

/-- Instance of C1 at `G_MAXINT64 + 1` and `G_MININT32 + -1`. -/
theorem overflow_add_flag_iff_witness :
    (manualFallback.useBuiltin = false
      ∧ inRange64 G_MAXINT64 ∧ inRange64 1 ∧ inRange32 G_MININT32 ∧ inRange32 (-1))
    ∧ ((gpseq_overflow_int64_add manualFallback G_MAXINT64 1).2 = true
        ↔ ¬ inRange64 (G_MAXINT64 + 1))
    ∧ ((gpseq_overflow_int32_add manualFallback G_MININT32 (-1)).2 = true
        ↔ ¬ inRange32 (G_MININT32 + -1)) :=
  ⟨by decide,
    overflow_add_flag_iff manualFallback rfl G_MAXINT64 1 (by decide) (by decide)
      G_MININT32 (-1) (by decide) (by decide)⟩

/-- C2. For all `gint64` values `a`, `b` the manual-range
`gpseq_overflow_int64_mul` (the sign case split against the truncated
quotients, and the 128-bit body as well) returns TRUE exactly when the exact
product `a * b` lies outside `[G_MININT64, G_MAXINT64]`. -/
theorem overflow_int64_mul_flag_iff (cfg : BuildConfig) (hcfg : cfg.useBuiltin = false)
    (a b : Int) (ha : inRange64 a) (hb : inRange64 b) :
    (gpseq_overflow_int64_mul cfg a b).2 = true ↔ ¬ inRange64 (a * b) := by
  rw [int64_mul_manual cfg hcfg a b ha hb]
  exact decide_eq_true_iff

/-- Instance of C2 at `G_MININT64 * -1`. -/
theorem overflow_int64_mul_flag_iff_witness :
    (manualFallback.useBuiltin = false ∧ inRange64 G_MININT64 ∧ inRange64 (-1))
    ∧ ((gpseq_overflow_int64_mul manualFallback G_MININT64 (-1)).2 = true
        ↔ ¬ inRange64 (G_MININT64 * -1)) :=
  ⟨by decide, overflow_int64_mul_flag_iff manualFallback rfl G_MININT64 (-1)
    (by decide) (by decide)⟩

/-- C3 (the code departs from the claim). At the subtrahend `G_MININT64` the
manual-range `gpseq_overflow_int64_sub` returns FALSE for `a = 0` although the
exact difference `0 - G_MININT64 = 2^63` is not representable, and returns TRUE
for `a = -1` although `-1 - G_MININT64 = G_MAXINT64` is representable; the
manual-range `gpseq_overflow_int32_sub` does the same at `G_MININT32`. -/
theorem overflow_sub_flag_wrong_at_min :
    (gpseq_overflow_int64_sub manualFallback 0 G_MININT64 = (G_MININT64, false)
      ∧ ¬ inRange64 (0 - G_MININT64))
    ∧ (gpseq_overflow_int64_sub manualFallback (-1) G_MININT64 = (G_MAXINT64, true)
      ∧ inRange64 (-1 - G_MININT64))
    ∧ (gpseq_overflow_int32_sub manualFallback 0 G_MININT32 = (G_MININT32, false)
      ∧ ¬ inRange32 (0 - G_MININT32))
    ∧ (gpseq_overflow_int32_sub manualFallback (-1) G_MININT32 = (G_MAXINT32, true)
      ∧ inRange32 (-1 - G_MININT32)) := by
  decide

/-- C4 (the code departs from the claim). For every `gint64` value `a` the
manual-range `gpseq_overflow_int64_sub a G_MININT64` returns TRUE exactly when
`a < 0`, the opposite of the exact condition `a >= 0`. -/
theorem overflow_int64_sub_min_flag (cfg : BuildConfig) (hcfg : cfg.useBuiltin = false)
    (a : Int) (ha : inRange64 a) :
    (gpseq_overflow_int64_sub cfg a G_MININT64).2 = true ↔ a < 0 := by
  rw [int64_sub_manual cfg hcfg a G_MININT64 ha]
  have hneg : sneg 64 G_MININT64 = G_MININT64 := by decide
  rw [hneg]
  simp only [decide_eq_true_eq, inRange64, G_MININT64, G_MAXINT64] at ha ⊢
  omega

/-- Instance of C4 at `a = 0`: the flag is FALSE although `0 >= 0`. -/
theorem overflow_int64_sub_min_flag_witness :
    (manualFallback.useBuiltin = false ∧ inRange64 0)
    ∧ ((gpseq_overflow_int64_sub manualFallback 0 G_MININT64).2 = true ↔ (0 : Int) < 0) :=
  ⟨by decide, overflow_int64_sub_min_flag manualFallback rfl 0 (by decide)⟩

/-- C5 (the code departs from the claim). At `a = 0` and `b` the minimum of
the type, the compiler-primitive subtraction returns the flag TRUE and the
manual-range subtraction returns the flag FALSE, at 64 and at 32 bits, in both
manual-range bodies; the stored values agree. -/
theorem sub_strategies_differ_at_min :
    gpseq_overflow_int64_sub builtinChecked 0 G_MININT64 = (G_MININT64, true)
    ∧ gpseq_overflow_int64_sub manualFallback 0 G_MININT64 = (G_MININT64, false)
    ∧ gpseq_overflow_int64_sub manualInt128 0 G_MININT64 = (G_MININT64, false)
    ∧ gpseq_overflow_int32_sub builtinChecked 0 G_MININT32 = (G_MININT32, true)
    ∧ gpseq_overflow_int32_sub manualFallback 0 G_MININT32 = (G_MININT32, false)
    ∧ gpseq_overflow_int32_sub manualInt128 0 G_MININT32 = (G_MININT32, false) := by
  decide


/-- C6. For all `gint64` values `a`, `b` the value stored by the manual-range
`gpseq_overflow_int64_add` is `a + b` reduced modulo `2^64` and read as two's
complement, whether or not overflow is reported, and it is exactly `a + b` when
the call returns FALSE; likewise the manual-range `gpseq_overflow_int32_add`
stores `c + d` reduced modulo `2^32`, exactly `c + d` when it returns FALSE. -/
theorem overflow_add_result_wraps (cfg : BuildConfig) (hcfg : cfg.useBuiltin = false)
    (a b : Int) (ha : inRange64 a) (hb : inRange64 b)
    (c d : Int) (hc : inRange32 c) (hd : inRange32 d) :
    ((gpseq_overflow_int64_add cfg a b).1 = wrapInt 64 (a + b)
      ∧ ((gpseq_overflow_int64_add cfg a b).2 = false
          → (gpseq_overflow_int64_add cfg a b).1 = a + b))
    ∧ ((gpseq_overflow_int32_add cfg c d).1 = wrapInt 32 (c + d)
      ∧ ((gpseq_overflow_int32_add cfg c d).2 = false
          → (gpseq_overflow_int32_add cfg c d).1 = c + d)) := by
  rw [int64_add_manual cfg hcfg a b ha hb, int32_add_manual cfg hcfg c d hc hd]
  refine ⟨⟨rfl, fun h => ?_⟩, ⟨rfl, fun h => ?_⟩⟩
  · exact wrapInt64_of_inRange _ (not_not.mp (of_decide_eq_false h))
  · exact wrapInt32_of_inRange _ (not_not.mp (of_decide_eq_false h))

/-- Instance of C6 at `G_MAXINT64 + 1` (overflow) and `5 + 3` (no overflow). -/
theorem overflow_add_result_wraps_witness :
    (manualFallback.useBuiltin = false
      ∧ inRange64 G_MAXINT64 ∧ inRange64 1 ∧ inRange32 5 ∧ inRange32 3)
    ∧ ((gpseq_overflow_int64_add manualFallback G_MAXINT64 1).1 = wrapInt 64 (G_MAXINT64 + 1)
      ∧ ((gpseq_overflow_int64_add manualFallback G_MAXINT64 1).2 = false
          → (gpseq_overflow_int64_add manualFallback G_MAXINT64 1).1 = G_MAXINT64 + 1))
    ∧ ((gpseq_overflow_int32_add manualFallback 5 3).1 = wrapInt 32 (5 + 3)
      ∧ ((gpseq_overflow_int32_add manualFallback 5 3).2 = false
          → (gpseq_overflow_int32_add manualFallback 5 3).1 = 5 + 3)) :=
  ⟨by decide,
    overflow_add_result_wraps manualFallback rfl G_MAXINT64 1 (by decide) (by decide)
      5 3 (by decide) (by decide)⟩

/-- C7. For all `gint64` values `a`, `b` the value stored by the manual-range
`gpseq_overflow_int64_mul` (the unsigned product of the converted operands, and
the 128-bit body as well) is `a * b` reduced modulo `2^64` and read as two's
complement; when the call returns FALSE it is exactly `a * b`. -/
theorem overflow_int64_mul_result_wraps (cfg : BuildConfig) (hcfg : cfg.useBuiltin = false)
    (a b : Int) (ha : inRange64 a) (hb : inRange64 b) :
    (gpseq_overflow_int64_mul cfg a b).1 = wrapInt 64 (a * b)
      ∧ ((gpseq_overflow_int64_mul cfg a b).2 = false
          → (gpseq_overflow_int64_mul cfg a b).1 = a * b) := by
  rw [int64_mul_manual cfg hcfg a b ha hb]
  exact ⟨rfl, fun h => wrapInt64_of_inRange _ (not_not.mp (of_decide_eq_false h))⟩

/-- Instance of C7 at `3037000500 * 3037000500`, which exceeds `G_MAXINT64`. -/
theorem overflow_int64_mul_result_wraps_witness :
    (manualFallback.useBuiltin = false ∧ inRange64 3037000500)
    ∧ (gpseq_overflow_int64_mul manualFallback 3037000500 3037000500).1
        = wrapInt 64 (3037000500 * 3037000500)
    ∧ ((gpseq_overflow_int64_mul manualFallback 3037000500 3037000500).2 = false
        → (gpseq_overflow_int64_mul manualFallback 3037000500 3037000500).1
            = 3037000500 * 3037000500) :=
  ⟨by decide,
    overflow_int64_mul_result_wraps manualFallback rfl 3037000500 3037000500
      (by decide) (by decide)⟩

/-- C8. For every `gint64` value `a` and every `b` (the minimum `G_MININT64`
included) the value stored by the manual-range `gpseq_overflow_int64_sub` is
`a - b` reduced modulo `2^64` and read as two's complement; likewise the
manual-range `gpseq_overflow_int32_sub` stores `c - d` reduced modulo `2^32`
for every `gint32` value `c` and every `d` (`G_MININT32` included). -/
theorem overflow_sub_result_wraps (cfg : BuildConfig) (hcfg : cfg.useBuiltin = false)
    (a b : Int) (ha : inRange64 a) (c d : Int) (hc : inRange32 c) :
    (gpseq_overflow_int64_sub cfg a b).1 = wrapInt 64 (a - b)
      ∧ (gpseq_overflow_int32_sub cfg c d).1 = wrapInt 32 (c - d) := by
  rw [int64_sub_manual cfg hcfg a b ha, int32_sub_manual cfg hcfg c d hc]
  exact ⟨rfl, rfl⟩

/-- Instance of C8 at the minimum subtrahend of each width. -/
theorem overflow_sub_result_wraps_witness :
    (manualFallback.useBuiltin = false ∧ inRange64 7 ∧ inRange32 7)
    ∧ (gpseq_overflow_int64_sub manualFallback 7 G_MININT64).1 = wrapInt 64 (7 - G_MININT64)
    ∧ (gpseq_overflow_int32_sub manualFallback 7 G_MININT32).1
        = wrapInt 32 (7 - G_MININT32) :=
  ⟨by decide, overflow_sub_result_wraps manualFallback rfl 7 G_MININT64 (by decide)
    7 G_MININT32 (by decide)⟩

/-- C9. The boundary scenarios at 64 bits, in every build: adding 1 to
`G_MAXINT64` yields `(G_MININT64, TRUE)`; subtracting 1 from `G_MININT64`
yields `(G_MAXINT64, TRUE)`; multiplying `G_MININT64` by `-1` yields
`(G_MININT64, TRUE)`; adding 5 and 3 yields `(8, FALSE)`. -/
theorem overflow_int64_boundary_scenarios (cfg : BuildConfig) :
    gpseq_overflow_int64_add cfg G_MAXINT64 1 = (G_MININT64, true)
      ∧ gpseq_overflow_int64_sub cfg G_MININT64 1 = (G_MAXINT64, true)
      ∧ gpseq_overflow_int64_mul cfg G_MININT64 (-1) = (G_MININT64, true)
      ∧ gpseq_overflow_int64_add cfg 5 3 = (8, false) := by
  rcases cfg with ⟨_ | _, _ | _⟩ <;> decide

/-- C10. In every build and for every `b` (so for every `gint64` value,
`G_MININT64` and `G_MAXINT64` included), `gpseq_overflow_int64_mul 0 b` and
`gpseq_overflow_int64_mul b 0` both store 0 and return FALSE. -/
theorem overflow_int64_mul_zero (cfg : BuildConfig) (b : Int) :
    gpseq_overflow_int64_mul cfg 0 b = (0, false)
      ∧ gpseq_overflow_int64_mul cfg b 0 = (0, false) := by
  have hw : wrapInt 64 0 = 0 := by decide
  have hr : representable 64 0 := by decide
  have hs : toSigned 64 0 = 0 := by decide
  have hs' : toSigned 128 0 = 0 := by decide
  have hu : toUnsigned 64 0 = 0 := by decide
  have hc1 : decide ((0 : Int) > G_MAXINT64) = false := by decide
  have hc2 : decide ((0 : Int) < G_MININT64) = false := by decide
  rcases cfg with ⟨_ | _, _ | _⟩ <;>
    simp [gpseq_overflow_int64_mul, builtin_mul_overflow, smul, umul, hw, hr, hs, hs', hu,
      hc1, hc2]


/-! ## Lemmas on the atomic operations -/

/-- A decrement of a cell holding more than 1 (and at most `G_MAXINT64`)
returns FALSE and leaves the exact predecessor. -/
theorem dec_and_test_step (be : AtomicBackend) (c : Int) (h1 : 1 ≤ c) (h2 : c ≤ G_MAXINT64) :
    gpseq_atomic_int64_dec_and_test be ⟨false, c⟩ = some (decide (c = 1), ⟨false, c - 1⟩) := by
  have hs : ssub 64 c 1 = c - 1 := by
    apply toSigned64_of_inRange
    simp only [inRange64, G_MININT64, G_MAXINT64] at h2 ⊢
    omega
  have hd : decide (c - 1 = 0) = decide (c = 1) := by
    rw [Bool.eq_iff_iff]
    simp only [decide_eq_true_eq]
    omega
  cases be <;>
    simp [gpseq_atomic_int64_dec_and_test, atomic_op_fetch, g_mutex_lock, g_mutex_unlock, hs, hd]

/-- A run of as many decrements as the cell holds: all calls but the last
return FALSE, the last returns TRUE, and the cell ends at zero. -/
theorem dec_and_test_run_exact (be : AtomicBackend) :
    ∀ (schedule : List Nat) (c : Int), (schedule.length : Int) = c → c ≤ G_MAXINT64 →
      1 ≤ c →
      dec_and_test_run be schedule ⟨false, c⟩
        = some (schedule.zip (List.replicate (schedule.length - 1) false ++ [true]),
            ⟨false, 0⟩) := by
  intro schedule
  induction schedule with
  | nil =>
    intro c hlen _ h1
    simp only [List.length_nil, Nat.cast_zero] at hlen
    omega
  | cons t rest ih =>
    intro c hlen hmax h1
    simp only [List.length_cons, Nat.cast_add, Nat.cast_one] at hlen
    rw [dec_and_test_run, dec_and_test_step be c h1 hmax]
    cases rest with
    | nil =>
      simp only [List.length_nil, Nat.cast_zero, zero_add] at hlen
      subst hlen
      simp [dec_and_test_run]
    | cons u rest2 =>
      have hlen2 : (((u :: rest2).length : Nat) : Int) = c - 1 := by omega
      have hpos : 1 ≤ c - 1 := by
        rw [← hlen2]
        simp only [List.length_cons, Nat.cast_add, Nat.cast_one]
        omega
      have hne : decide (c = 1) = false := by
        simp only [decide_eq_false_iff_not]
        omega
      have hrest := ih (c - 1) hlen2 (by omega) hpos
      simp only [hrest, hne, List.length_cons, Nat.add_sub_cancel, List.replicate_succ,
        List.cons_append, List.zip_cons_cons]

/-! ## The claims on `atomic.c` and on the bodies of `overflow.c` -/

/-- C11. For every cell value `c` and every `oldval`, `newval`, the
mutex-emulated `gpseq_atomic_int64_compare_and_exchange` (and every other
backend), as one step on the cell, returns TRUE and leaves the cell equal to
`newval` when `c = oldval`, and returns FALSE and leaves the cell equal to `c`
when `c ≠ oldval`; the mutex is free again after the call. -/
theorem atomic_compare_and_exchange_spec (be : AtomicBackend) (c oldval newval : Int) :
    (c = oldval →
        gpseq_atomic_int64_compare_and_exchange be oldval newval ⟨false, c⟩
          = some (true, ⟨false, newval⟩))
      ∧ (c ≠ oldval →
        gpseq_atomic_int64_compare_and_exchange be oldval newval ⟨false, c⟩
          = some (false, ⟨false, c⟩)) := by
  constructor
  · intro h
    cases be <;>
      simp [gpseq_atomic_int64_compare_and_exchange, atomic_bool_compare_and_swap,
        InterlockedCompareExchange64, g_mutex_lock, g_mutex_unlock, h]
  · intro h
    cases be <;>
      simp [gpseq_atomic_int64_compare_and_exchange, atomic_bool_compare_and_swap,
        InterlockedCompareExchange64, g_mutex_lock, g_mutex_unlock, h]

/-- C12. For every cell value `c` and every `delta`, `gpseq_atomic_int64_add`
returns `c` and leaves the cell holding `c + delta` reduced modulo `2^64`
(two's complement), and a `gpseq_atomic_int64_get` right after it returns that
value. -/
theorem atomic_add_returns_previous (be : AtomicBackend) (c delta : Int) :
    gpseq_atomic_int64_add be delta ⟨false, c⟩
        = some (c, ⟨false, wrapInt 64 (c + delta)⟩)
      ∧ ((gpseq_atomic_int64_add be delta ⟨false, c⟩).bind fun r =>
          (gpseq_atomic_int64_get be r.2).map fun g => g.1)
        = some (wrapInt 64 (c + delta)) := by
  have hs : sadd 64 c delta = wrapInt 64 (c + delta) := toSigned64_eq_wrapInt _
  cases be <;>
    simp [gpseq_atomic_int64_add, gpseq_atomic_int64_get, atomic_fetch_op, g_mutex_lock,
      g_mutex_unlock, hs]

/-- C13. For every `gint64` cell value `c`, `gpseq_atomic_int64_dec_and_test`
leaves the cell holding `c - 1` reduced modulo `2^64` and returns TRUE exactly
when that value is zero, which is exactly when `c = 1`. -/
theorem atomic_dec_and_test_spec (be : AtomicBackend) (c : Int) (hc : inRange64 c) :
    gpseq_atomic_int64_dec_and_test be ⟨false, c⟩
        = some (decide (wrapInt 64 (c - 1) = 0), ⟨false, wrapInt 64 (c - 1)⟩)
      ∧ (wrapInt 64 (c - 1) = 0 ↔ c = 1) := by
  have hs : ssub 64 c 1 = wrapInt 64 (c - 1) := toSigned64_eq_wrapInt _
  constructor
  · cases be <;>
      simp [gpseq_atomic_int64_dec_and_test, atomic_op_fetch, g_mutex_lock, g_mutex_unlock, hs]
  · simp only [inRange64, G_MININT64, G_MAXINT64] at hc
    simp only [wrapInt]
    norm_num
    omega

/-- Instance of C13 at `c = G_MININT64`, where the decrement wraps. -/
theorem atomic_dec_and_test_spec_witness :
    inRange64 G_MININT64
    ∧ gpseq_atomic_int64_dec_and_test AtomicBackend.mutex ⟨false, G_MININT64⟩
        = some (decide (wrapInt 64 (G_MININT64 - 1) = 0),
            ⟨false, wrapInt 64 (G_MININT64 - 1)⟩)
    ∧ (wrapInt 64 (G_MININT64 - 1) = 0 ↔ G_MININT64 = 1) :=
  ⟨by decide, atomic_dec_and_test_spec AtomicBackend.mutex G_MININT64 (by decide)⟩

/-- C14. For all `guint64` values `c` (the cell) and `v`,
`gpseq_atomic_int64_and`, `gpseq_atomic_int64_or` and `gpseq_atomic_int64_xor`
each return `c` and leave the cell holding `c & v`, `c | v` and `c ^ v`, which
are `guint64` values again. -/
theorem atomic_bitwise_return_previous (be : AtomicBackend) (c v : Nat)
    (hc : inRangeU64 c) (hv : inRangeU64 v) :
    (gpseq_atomic_int64_and be v ⟨false, c⟩ = some (c, ⟨false, c &&& v⟩)
      ∧ inRangeU64 (c &&& v))
    ∧ (gpseq_atomic_int64_or be v ⟨false, c⟩ = some (c, ⟨false, c ||| v⟩)
      ∧ inRangeU64 (c ||| v))
    ∧ (gpseq_atomic_int64_xor be v ⟨false, c⟩ = some (c, ⟨false, c ^^^ v⟩)
      ∧ inRangeU64 (c ^^^ v)) := by
  refine ⟨⟨?_, Nat.and_lt_two_pow c hv⟩, ⟨?_, Nat.or_lt_two_pow hc hv⟩,
    ⟨?_, Nat.xor_lt_two_pow hc hv⟩⟩
  · cases be <;>
      simp [gpseq_atomic_int64_and, atomic_fetch_op, g_mutex_lock, g_mutex_unlock]
  · cases be <;>
      simp [gpseq_atomic_int64_or, atomic_fetch_op, g_mutex_lock, g_mutex_unlock]
  · cases be <;>
      simp [gpseq_atomic_int64_xor, atomic_fetch_op, g_mutex_lock, g_mutex_unlock]

/-- Instance of C14 at `c = 12`, `v = 10`. -/
theorem atomic_bitwise_return_previous_witness :
    (inRangeU64 12 ∧ inRangeU64 10)
    ∧ (gpseq_atomic_int64_and AtomicBackend.mutex 10 ⟨false, 12⟩
        = some (12, ⟨false, 12 &&& 10⟩) ∧ inRangeU64 (12 &&& 10))
    ∧ (gpseq_atomic_int64_or AtomicBackend.mutex 10 ⟨false, 12⟩
        = some (12, ⟨false, 12 ||| 10⟩) ∧ inRangeU64 (12 ||| 10))
    ∧ (gpseq_atomic_int64_xor AtomicBackend.mutex 10 ⟨false, 12⟩
        = some (12, ⟨false, 12 ^^^ 10⟩) ∧ inRangeU64 (12 ^^^ 10)) :=
  ⟨by decide, atomic_bitwise_return_previous AtomicBackend.mutex 12 10 (by decide) (by decide)⟩

/-- C15. Starting from a cell holding `V` with `1 ≤ V ≤ G_MAXINT64`, in every
run of exactly `V` calls to `gpseq_atomic_int64_dec_and_test` (each call one
step, whichever threads make the calls and in whatever order), the first
`V - 1` calls return FALSE and the `V`-th call returns TRUE, leaving the cell
at zero: exactly one call returns TRUE, the one that reaches zero. -/
theorem atomic_dec_and_test_true_exactly_once (be : AtomicBackend) (V : Nat) (hV : 1 ≤ V)
    (hmax : (V : Int) ≤ G_MAXINT64) (schedule : List Nat) (hlen : schedule.length = V) :
    dec_and_test_run be schedule ⟨false, (V : Int)⟩
      = some (schedule.zip (List.replicate (V - 1) false ++ [true]), ⟨false, 0⟩) := by
  subst hlen
  exact dec_and_test_run_exact be schedule _ rfl hmax (by exact_mod_cast hV)

/-- Instance of C15: three calls by the threads 0, 1, 0 on a cell holding 3. -/
theorem atomic_dec_and_test_true_exactly_once_witness :
    (1 ≤ 3 ∧ ((3 : Nat) : Int) ≤ G_MAXINT64 ∧ [0, 1, 0].length = 3)
    ∧ dec_and_test_run AtomicBackend.mutex [0, 1, 0] ⟨false, ((3 : Nat) : Int)⟩
      = some ([0, 1, 0].zip (List.replicate (3 - 1) false ++ [true]), ⟨false, 0⟩) :=
  ⟨by decide,
    atomic_dec_and_test_true_exactly_once AtomicBackend.mutex 3 (by decide) (by decide)
      [0, 1, 0] rfl⟩

/-- C17. `gpseq_atomic_int64_get` returns the value of the cell and leaves the
memory as it was, and `gpseq_atomic_int64_set` of `v` followed by
`gpseq_atomic_int64_get` returns `v`, whatever the cell held before. -/
theorem atomic_get_set_spec (be : AtomicBackend) (c v : Int) :
    gpseq_atomic_int64_get be ⟨false, c⟩ = some (c, ⟨false, c⟩)
      ∧ ((gpseq_atomic_int64_set be v ⟨false, c⟩).bind fun m =>
          (gpseq_atomic_int64_get be m).map fun g => g.1) = some v := by
  cases be <;>
    simp [gpseq_atomic_int64_get, gpseq_atomic_int64_set, g_mutex_lock, g_mutex_unlock]


/-- The trace-returning body of the addition computes the result of
`gpseq_overflow_int64_add` in the build without builtins and without a
128-bit type. -/
theorem int64_add_traced_result (a b : Int) :
    (gpseq_overflow_int64_add_traced a b).1 = gpseq_overflow_int64_add manualFallback a b := by
  simp only [gpseq_overflow_int64_add_traced, gpseq_overflow_int64_add, manualFallback]
  by_cases h1 : b > 0 <;> by_cases h2 : b < 0 <;>
    by_cases h3 : a > ssub 64 G_MAXINT64 b <;> by_cases h4 : a < ssub 64 G_MININT64 b <;>
    simp [h1, h2, h3, h4]

/-- The trace-returning body of the multiplication computes the result of
`gpseq_overflow_int64_mul` in the build without builtins and without a
128-bit type. -/
theorem int64_mul_traced_result (a b : Int) :
    (gpseq_overflow_int64_mul_traced a b).1 = gpseq_overflow_int64_mul manualFallback a b := by
  simp only [gpseq_overflow_int64_mul_traced, gpseq_overflow_int64_mul, manualFallback]
  by_cases h0 : a = 0 ∨ b = 0
  · have hc : (!(decide (a ≠ 0) && decide (b ≠ 0))) = true := by
      rcases h0 with h | h <;> simp [h]
    simp only [hc, ↓reduceIte, Bool.false_eq_true]
  · have hc : (!(decide (a ≠ 0) && decide (b ≠ 0))) = false := by
      simpa using h0
    simp only [hc, ↓reduceIte, Bool.false_eq_true]
    split_ifs <;> rfl

/-- Every signed operation evaluated by the addition body is defined, and is
one of: `G_MAXINT64 - b` with `b > 0`, `G_MININT64 - b` with `b < 0`, `a + b`
with the exact sum in range. -/
theorem int64_add_traced_ops (a b : Int) (ha : inRange64 a) (hb : inRange64 b) :
    ∀ op ∈ (gpseq_overflow_int64_add_traced a b).2,
      op.defined
        ∧ ((op = SignedOp.sub G_MAXINT64 b ∧ b > 0)
          ∨ (op = SignedOp.sub G_MININT64 b ∧ b < 0)
          ∨ (op = SignedOp.add a b ∧ inRange64 (a + b))) := by
  simp only [inRange64, G_MININT64, G_MAXINT64] at ha hb
  have e1 : b > 0 → ssub 64 G_MAXINT64 b = G_MAXINT64 - b := by
    intro h
    apply toSigned64_of_inRange
    simp only [inRange64, G_MININT64, G_MAXINT64]
    omega
  have e2 : b < 0 → ssub 64 G_MININT64 b = G_MININT64 - b := by
    intro h
    apply toSigned64_of_inRange
    simp only [inRange64, G_MININT64, G_MAXINT64]
    omega
  intro op hop
  simp only [gpseq_overflow_int64_add_traced] at hop
  rcases lt_trichotomy b 0 with hneg | hz | hpos
  · have hnp : ¬ b > 0 := by omega
    simp only [hnp, hneg, e2 hneg, ↓reduceIte, Bool.false_eq_true, List.nil_append] at hop
    by_cases hc : a < G_MININT64 - b
    · simp only [hc, decide_True, ↓reduceIte, List.mem_singleton] at hop
      subst hop
      refine ⟨?_, Or.inr (Or.inl ⟨rfl, hneg⟩)⟩
      simp only [SignedOp.defined, inRange64, G_MININT64, G_MAXINT64]
      omega
    · simp only [hc, decide_False, Bool.false_eq_true, ↓reduceIte, List.singleton_append,
        List.mem_cons, List.mem_singleton, List.not_mem_nil, or_false] at hop
      simp only [G_MININT64] at hc
      rcases hop with hop | hop
      · subst hop
        refine ⟨?_, Or.inr (Or.inl ⟨rfl, hneg⟩)⟩
        simp only [SignedOp.defined, inRange64, G_MININT64, G_MAXINT64]
        omega
      · subst hop
        have hr : inRange64 (a + b) := by
          simp only [inRange64, G_MININT64, G_MAXINT64]
          omega
        exact ⟨hr, Or.inr (Or.inr ⟨rfl, hr⟩)⟩
  · subst hz
    simp only [gt_iff_lt, lt_self_iff_false, ↓reduceIte, Bool.false_eq_true, List.nil_append,
      List.mem_singleton] at hop
    subst hop
    have hr : inRange64 (a + 0) := by
      simp only [inRange64, G_MININT64, G_MAXINT64]
      omega
    exact ⟨hr, Or.inr (Or.inr ⟨rfl, hr⟩)⟩
  · have hnn : ¬ b < 0 := by omega
    have hpos' : b > 0 := hpos
    simp only [hpos', hnn, e1 hpos', ↓reduceIte] at hop
    by_cases hc : a > G_MAXINT64 - b
    · simp only [hc, decide_True, ↓reduceIte, List.mem_singleton] at hop
      subst hop
      refine ⟨?_, Or.inl ⟨rfl, hpos⟩⟩
      simp only [SignedOp.defined, inRange64, G_MININT64, G_MAXINT64]
      omega
    · simp only [hc, decide_False, Bool.false_eq_true, ↓reduceIte, List.singleton_append,
        List.mem_cons, List.mem_singleton, List.not_mem_nil, or_false] at hop
      simp only [G_MAXINT64] at hc
      rcases hop with hop | hop
      · subst hop
        refine ⟨?_, Or.inl ⟨rfl, hpos⟩⟩
        simp only [SignedOp.defined, inRange64, G_MININT64, G_MAXINT64]
        omega
      · subst hop
        have hr : inRange64 (a + b) := by
          simp only [inRange64, G_MININT64, G_MAXINT64]
          omega
        exact ⟨hr, Or.inr (Or.inr ⟨rfl, hr⟩)⟩

/-- Every signed operation evaluated by the multiplication body is a division
with a divisor other than zero that is not `G_MININT64 / -1`. -/
theorem int64_mul_traced_ops (a b : Int) :
    ∀ op ∈ (gpseq_overflow_int64_mul_traced a b).2,
      op.defined
        ∧ ∃ x y, op = SignedOp.div x y ∧ y ≠ 0 ∧ ¬ (x = G_MININT64 ∧ y = -1) := by
  intro op hop
  simp only [gpseq_overflow_int64_mul_traced] at hop
  have key : ∀ x y : Int, y ≠ 0 → ¬ (x = G_MININT64 ∧ y = -1) → op = SignedOp.div x y →
      op.defined ∧ ∃ x y, op = SignedOp.div x y ∧ y ≠ 0 ∧ ¬ (x = G_MININT64 ∧ y = -1) := by
    intro x y h1 h2 h3
    subst h3
    exact ⟨⟨h1, h2⟩, x, y, rfl, h1, h2⟩
  have hmm : G_MAXINT64 ≠ G_MININT64 := by decide
  by_cases h0 : a = 0 ∨ b = 0
  · have hc : (!(decide (a ≠ 0) && decide (b ≠ 0))) = true := by
      rcases h0 with h | h <;> simp [h]
    simp only [hc, ↓reduceIte, List.not_mem_nil] at hop
  · have hab : a ≠ 0 ∧ b ≠ 0 := not_or.mp h0
    have hc : (!(decide (a ≠ 0) && decide (b ≠ 0))) = false := by
      simpa using h0
    simp only [hc, Bool.false_eq_true, ↓reduceIte] at hop
    by_cases h1 : a > 0 <;> by_cases h2 : b > 0 <;>
      simp only [h1, h2, ↓reduceIte, List.mem_singleton] at hop
    · exact key _ _ (by omega) (by omega) hop
    · exact key _ _ (by omega) (by omega) hop
    · exact key _ _ (by omega) (by omega) hop
    · exact key _ _ hab.1 (fun h => hmm h.1) hop


/-- C18. In the sign/magnitude bodies of `gpseq_overflow_int64_add` and
`gpseq_overflow_int64_mul`, for all `gint64` values `a`, `b`, every signed
operation that is evaluated is defined: the addition body evaluates only
`G_MAXINT64 - b` with `b > 0`, `G_MININT64 - b` with `b < 0`, and `a + b` with
the exact sum in range, each within the 64-bit signed range; the
multiplication body evaluates only divisions whose divisor is not zero and
that are not `G_MININT64 / -1`. The traced bodies return the results of the
two functions. -/
theorem overflow_int64_intermediates_defined (a b : Int) (ha : inRange64 a)
    (hb : inRange64 b) :
    ((gpseq_overflow_int64_add_traced a b).1 = gpseq_overflow_int64_add manualFallback a b
      ∧ ∀ op ∈ (gpseq_overflow_int64_add_traced a b).2,
          op.defined
            ∧ ((op = SignedOp.sub G_MAXINT64 b ∧ b > 0)
              ∨ (op = SignedOp.sub G_MININT64 b ∧ b < 0)
              ∨ (op = SignedOp.add a b ∧ inRange64 (a + b))))
    ∧ ((gpseq_overflow_int64_mul_traced a b).1 = gpseq_overflow_int64_mul manualFallback a b
      ∧ ∀ op ∈ (gpseq_overflow_int64_mul_traced a b).2,
          op.defined
            ∧ ∃ x y, op = SignedOp.div x y ∧ y ≠ 0 ∧ ¬ (x = G_MININT64 ∧ y = -1)) :=
  ⟨⟨int64_add_traced_result a b, int64_add_traced_ops a b ha hb⟩,
    ⟨int64_mul_traced_result a b, int64_mul_traced_ops a b⟩⟩

/-- Instance of C18 at `a = G_MININT64`, `b = -1`. -/
theorem overflow_int64_intermediates_defined_witness :
    (inRange64 G_MININT64 ∧ inRange64 (-1))
    ∧ ((gpseq_overflow_int64_add_traced G_MININT64 (-1)).1
          = gpseq_overflow_int64_add manualFallback G_MININT64 (-1)
      ∧ ∀ op ∈ (gpseq_overflow_int64_add_traced G_MININT64 (-1)).2,
          op.defined
            ∧ ((op = SignedOp.sub G_MAXINT64 (-1) ∧ (-1 : Int) > 0)
              ∨ (op = SignedOp.sub G_MININT64 (-1) ∧ (-1 : Int) < 0)
              ∨ (op = SignedOp.add G_MININT64 (-1) ∧ inRange64 (G_MININT64 + -1))))
    ∧ ((gpseq_overflow_int64_mul_traced G_MININT64 (-1)).1
          = gpseq_overflow_int64_mul manualFallback G_MININT64 (-1)
      ∧ ∀ op ∈ (gpseq_overflow_int64_mul_traced G_MININT64 (-1)).2,
          op.defined
            ∧ ∃ x y, op = SignedOp.div x y ∧ y ≠ 0 ∧ ¬ (x = G_MININT64 ∧ y = -1)) :=
  ⟨by decide, overflow_int64_intermediates_defined G_MININT64 (-1) (by decide) (by decide)⟩

/-- C19. For all `gint64` values `a`, `b`, the 128-bit body and the
sign/magnitude body of the manual strategy return the same (result, flag)
pair, for `gpseq_overflow_int64_add` and for `gpseq_overflow_int64_mul`. -/
theorem overflow_int64_widened_eq_fallback (a b : Int) (ha : inRange64 a)
    (hb : inRange64 b) :
    gpseq_overflow_int64_add manualInt128 a b = gpseq_overflow_int64_add manualFallback a b
      ∧ gpseq_overflow_int64_mul manualInt128 a b
          = gpseq_overflow_int64_mul manualFallback a b := by
  rw [int64_add_manual manualInt128 rfl a b ha hb, int64_add_manual manualFallback rfl a b ha hb,
    int64_mul_manual manualInt128 rfl a b ha hb, int64_mul_manual manualFallback rfl a b ha hb]
  exact ⟨rfl, rfl⟩

/-- Instance of C19 at `a = G_MININT64`, `b = -1`. -/
theorem overflow_int64_widened_eq_fallback_witness :
    (inRange64 G_MININT64 ∧ inRange64 (-1))
    ∧ gpseq_overflow_int64_add manualInt128 G_MININT64 (-1)
        = gpseq_overflow_int64_add manualFallback G_MININT64 (-1)
    ∧ gpseq_overflow_int64_mul manualInt128 G_MININT64 (-1)
        = gpseq_overflow_int64_mul manualFallback G_MININT64 (-1) :=
  ⟨by decide, overflow_int64_widened_eq_fallback G_MININT64 (-1) (by decide) (by decide)⟩

/-- C20. For every cell value `c` and every `oldval`, `newval` (equal or
not), the Win32 `gpseq_atomic_int64_compare_and_exchange`, which compares the
prior value reported by `InterlockedCompareExchange64` with `oldval`, returns
the same boolean and leaves the same cell value as the mutex-emulated one:
TRUE and `newval` when `c = oldval`, FALSE and `c` otherwise. -/
theorem atomic_compare_and_exchange_win32_eq_mutex (c oldval newval : Int) :
    gpseq_atomic_int64_compare_and_exchange AtomicBackend.win32 oldval newval ⟨false, c⟩
        = gpseq_atomic_int64_compare_and_exchange AtomicBackend.mutex oldval newval ⟨false, c⟩
      ∧ gpseq_atomic_int64_compare_and_exchange AtomicBackend.win32 oldval newval ⟨false, c⟩
        = some (decide (c = oldval), ⟨false, if c = oldval then newval else c⟩) := by
  by_cases h : c = oldval <;>
    simp [gpseq_atomic_int64_compare_and_exchange, InterlockedCompareExchange64, g_mutex_lock,
      g_mutex_unlock, h]


/-- C21. For all `gint64` values `a`, `b`, the manual-range
`gpseq_overflow_int64_add` returns the same (result, flag) pair on `(a, b)`
and on `(b, a)`, and so does the manual-range `gpseq_overflow_int64_mul`, in
the sign/magnitude bodies (whose guards treat `a` and `b` differently) and in
the 128-bit bodies. -/
theorem overflow_int64_add_mul_comm (cfg : BuildConfig) (hcfg : cfg.useBuiltin = false)
    (a b : Int) (ha : inRange64 a) (hb : inRange64 b) :
    gpseq_overflow_int64_add cfg a b = gpseq_overflow_int64_add cfg b a
      ∧ gpseq_overflow_int64_mul cfg a b = gpseq_overflow_int64_mul cfg b a := by
  rw [int64_add_manual cfg hcfg a b ha hb, int64_add_manual cfg hcfg b a hb ha,
    int64_mul_manual cfg hcfg a b ha hb, int64_mul_manual cfg hcfg b a hb ha,
    add_comm b a, mul_comm b a]
  exact ⟨rfl, rfl⟩

/-- Instance of C21 at `a = G_MININT64`, `b = -1` in the sign/magnitude
bodies. -/
theorem overflow_int64_add_mul_comm_witness :
    (manualFallback.useBuiltin = false ∧ inRange64 G_MININT64 ∧ inRange64 (-1))
    ∧ gpseq_overflow_int64_add manualFallback G_MININT64 (-1)
        = gpseq_overflow_int64_add manualFallback (-1) G_MININT64
    ∧ gpseq_overflow_int64_mul manualFallback G_MININT64 (-1)
        = gpseq_overflow_int64_mul manualFallback (-1) G_MININT64 :=
  ⟨by decide,
    overflow_int64_add_mul_comm manualFallback rfl G_MININT64 (-1) (by decide) (by decide)⟩

/-- C22. For all `gint32` values `a`, `b`, the exact sum `a + b` and the
exact product `a * b` lie within `[G_MININT64, G_MAXINT64]`, so the 64-bit
`temp` of the manual-range `gpseq_overflow_int32_add` and
`gpseq_overflow_int32_mul` is the exact result, and the two functions store
and compare that exact result. -/
theorem overflow_int32_temp_exact (cfg : BuildConfig) (hcfg : cfg.useBuiltin = false)
    (a b : Int) (ha : inRange32 a) (hb : inRange32 b) :
    (inRange64 (a + b) ∧ sadd 64 a b = a + b
      ∧ gpseq_overflow_int32_add cfg a b
          = (toSigned 32 (a + b),
              decide (a + b > G_MAXINT32) || decide (a + b < G_MININT32)))
    ∧ (inRange64 (a * b) ∧ smul 64 a b = a * b
      ∧ gpseq_overflow_int32_mul cfg a b
          = (toSigned 32 (a * b),
              decide (a * b > G_MAXINT32) || decide (a * b < G_MININT32))) := by
  have hm := mul_inRange32_bounds a b ha hb
  have hsum : inRange64 (a + b) := by
    simp only [inRange32, G_MININT32, G_MAXINT32] at ha hb
    simp only [inRange64, G_MININT64, G_MAXINT64]
    omega
  have hprod : inRange64 (a * b) := by
    simp only [inRange64, G_MININT64, G_MAXINT64]
    omega
  have hs : sadd 64 a b = a + b := toSigned64_of_inRange _ hsum
  have hp : smul 64 a b = a * b := toSigned64_of_inRange _ hprod
  refine ⟨⟨hsum, hs, ?_⟩, ⟨hprod, hp, ?_⟩⟩
  · simp only [gpseq_overflow_int32_add, hcfg, Bool.false_eq_true, ↓reduceIte, hs]
  · simp only [gpseq_overflow_int32_mul, hcfg, Bool.false_eq_true, ↓reduceIte, hp]

/-- Instance of C22 at `a = b = G_MININT32`, the largest product. -/
theorem overflow_int32_temp_exact_witness :
    (manualFallback.useBuiltin = false ∧ inRange32 G_MININT32)
    ∧ (inRange64 (G_MININT32 + G_MININT32)
      ∧ sadd 64 G_MININT32 G_MININT32 = G_MININT32 + G_MININT32
      ∧ gpseq_overflow_int32_add manualFallback G_MININT32 G_MININT32
          = (toSigned 32 (G_MININT32 + G_MININT32),
              decide (G_MININT32 + G_MININT32 > G_MAXINT32)
                || decide (G_MININT32 + G_MININT32 < G_MININT32)))
    ∧ (inRange64 (G_MININT32 * G_MININT32)
      ∧ smul 64 G_MININT32 G_MININT32 = G_MININT32 * G_MININT32
      ∧ gpseq_overflow_int32_mul manualFallback G_MININT32 G_MININT32
          = (toSigned 32 (G_MININT32 * G_MININT32),
              decide (G_MININT32 * G_MININT32 > G_MAXINT32)
                || decide (G_MININT32 * G_MININT32 < G_MININT32))) :=
  ⟨by decide,
    overflow_int32_temp_exact manualFallback rfl G_MININT32 G_MININT32 (by decide) (by decide)⟩

end Gpseq
